import Mathlib

/-!
Verification of the download-queue / retry / archive / history subsystem of
the yt-tools repository, via a shallow embedding of the Python sources
(src/ytdl_app/download/{item,queue,archive,downloader}.py and
src/ytdl_app/project/history.py) into Lean.

Modelling conventions:
* Python `datetime` values are modelled as natural numbers; the
  isoformat/fromisoformat pair is a bijection on datetimes, so serialization
  of an `added_at` value is modelled as the identity on that number.
* Python `float` progress values are modelled as rationals.
* `pathlib.Path` values are modelled as strings; a `Path` object is always
  truthy in Python, while an empty *string* is falsy, and both facts are
  mirrored where the source tests truthiness.
* Python dicts keyed by id are modelled as association lists in insertion
  order (Python dicts preserve insertion order; reassigning an existing key
  keeps its position).
* Files are modelled as their content (lists of lines, or a decoded JSON
  snapshot); time and `hash(url)` are passed in as explicit parameters.
-/

namespace YtTools

/-- The DownloadStatus enum from src/ytdl_app/models/formats.py. -/
inductive DownloadStatus where
  | pending
  | downloading
  | paused
  | completed
  | failed
  | cancelled
deriving DecidableEq

/-- The string value of each enum member (its .value in Python). -/
def statusValue : DownloadStatus → String
  | .pending => "pending"
  | .downloading => "downloading"
  | .paused => "paused"
  | .completed => "completed"
  | .failed => "failed"
  | .cancelled => "cancelled"

/-- DownloadStatus(s): enum lookup by value; none models the ValueError
raised on an unknown string. -/
def statusOfValue (s : String) : Option DownloadStatus :=
  if s = "pending" then some .pending
  else if s = "downloading" then some .downloading
  else if s = "paused" then some .paused
  else if s = "completed" then some .completed
  else if s = "failed" then some .failed
  else if s = "cancelled" then some .cancelled
  else none

/-- The DownloadItem dataclass from src/ytdl_app/download/item.py. -/
structure DownloadItem where
  url : String
  id : String
  title : String
  status : DownloadStatus
  progress : Rat
  error : Option String
  output_path : Option String
  added_at : Nat
  started_at : Option Nat
  completed_at : Option Nat
  retries : Nat
deriving DecidableEq

/-- The id string built in DownloadItem.__post_init__:
f-string of hash(self.url) and int(time.time() * 1000) joined by an
underscore. h is the Python hash of the url, t the millisecond clock. -/
def mkItemId (h : ℤ) (t : ℕ) : String :=
  toString h ++ "_" ++ toString t

/-- DownloadItem.__post_init__: generate the id only when it is empty. -/
def DownloadItem.postInit (x : DownloadItem) (h : ℤ) (t : ℕ) : DownloadItem :=
  if x.id = "" then { x with id := mkItemId h t } else x

/-- DownloadItem(url=url, title=title) with all defaults, after
__post_init__; now is datetime.now() for added_at, h and t feed the id. -/
def DownloadItem.new (url title : String) (h : ℤ) (t now : ℕ) : DownloadItem :=
  DownloadItem.postInit
    { url := url, id := "", title := title, status := .pending, progress := 0,
      error := none, output_path := none, added_at := now, started_at := none,
      completed_at := none, retries := 0 } h t

/-- DownloadItem.mark_started. -/
def DownloadItem.mark_started (x : DownloadItem) (now : ℕ) : DownloadItem :=
  { x with status := .downloading, started_at := some now }

/-- DownloadItem.mark_completed; outp models the optional output_path
argument (a Path is truthy in Python exactly when it is not None). -/
def DownloadItem.mark_completed (x : DownloadItem) (outp : Option String)
    (now : ℕ) : DownloadItem :=
  let y := { x with status := .completed, completed_at := some now,
                    progress := 100 }
  match outp with
  | some p => { y with output_path := some p }
  | none => y

/-- DownloadItem.mark_failed: sets status and error only. -/
def DownloadItem.mark_failed (x : DownloadItem) (e : String) : DownloadItem :=
  { x with status := .failed, error := some e }

/-- The dictionary produced by DownloadItem.to_dict: exactly the keys
url, id, title, status, progress, error, output_path, added_at, retries. -/
structure ItemDict where
  url : String
  id : String
  title : String
  status : String
  progress : Rat
  error : Option String
  output_path : Option String
  added_at : Nat
  retries : Nat
deriving DecidableEq

/-- DownloadItem.to_dict. output_path is serialized through str() when the
Path is truthy (always, when present); added_at through isoformat (a
bijection, modelled as the identity on the datetime number). -/
def DownloadItem.to_dict (x : DownloadItem) : ItemDict :=
  { url := x.url, id := x.id, title := x.title,
    status := statusValue x.status, progress := x.progress,
    error := x.error, output_path := x.output_path,
    added_at := x.added_at, retries := x.retries }

/-- DownloadItem.from_dict followed by __post_init__ (which dataclass
construction triggers). Returns none when the status string is not a valid
enum value. data.get of output_path is truthiness-tested, so an empty
string deserializes to None. started_at and completed_at are not read at
all and keep their dataclass defaults of None. -/
def DownloadItem.from_dict (d : ItemDict) (h : ℤ) (t : ℕ) :
    Option DownloadItem :=
  match statusOfValue d.status with
  | none => none
  | some st =>
    some (DownloadItem.postInit
      { url := d.url, id := d.id, title := d.title, status := st,
        progress := d.progress, error := d.error,
        output_path := match d.output_path with
          | some s => if s = "" then none else some s
          | none => none,
        added_at := d.added_at, started_at := none, completed_at := none,
        retries := d.retries } h t)

lemma statusOfValue_statusValue (st : DownloadStatus) :
    statusOfValue (statusValue st) = some st := by
  cases st <;> simp [statusValue, statusOfValue]

/-- C9: to_dict produces exactly the nine listed fields (the ItemDict
record), and from_dict (to_dict x) restores every one of them while
always yielding started_at = none and completed_at = none, for every item
representable in Python (the id is never empty after __post_init__, and
str of a Path is never the empty string). -/
theorem c9_to_dict_from_dict_roundtrip (x : DownloadItem) (h : ℤ) (t : ℕ)
    (hid : x.id ≠ "") (hout : x.output_path ≠ some "") :
    DownloadItem.from_dict (DownloadItem.to_dict x) h t =
      some { x with started_at := none, completed_at := none } := by
  unfold DownloadItem.from_dict DownloadItem.to_dict DownloadItem.postInit
  rw [statusOfValue_statusValue]
  cases hpath : x.output_path with
  | none => simp [hid]
  | some s =>
    have hs : s ≠ "" := by
      intro hcon
      exact hout (by rw [hpath, hcon])
    simp [hid, hs]

/-- Witness for c9_to_dict_from_dict_roundtrip at a concrete item. -/
theorem c9_to_dict_from_dict_roundtrip_witness :
    DownloadItem.from_dict
      (DownloadItem.to_dict
        { url := "u", id := "7_5", title := "T", status := .failed,
          progress := 50, error := some "boom", output_path := some "out.mp4",
          added_at := 11, started_at := some 12, completed_at := some 13,
          retries := 2 }) 0 0 =
      some { url := "u", id := "7_5", title := "T", status := .failed,
             progress := 50, error := some "boom",
             output_path := some "out.mp4", added_at := 11,
             started_at := none, completed_at := none, retries := 2 } := by
  exact c9_to_dict_from_dict_roundtrip
    { url := "u", id := "7_5", title := "T", status := .failed,
      progress := 50, error := some "boom", output_path := some "out.mp4",
      added_at := 11, started_at := some 12, completed_at := some 13,
      retries := 2 } 0 0 (by decide) (by decide)

/-- C7 counterexample: mark_failed sets no timestamp at all (started_at and
completed_at are untouched) and mutates the error field, contradicting the
claim that each convenience method sets status plus a timestamp while
leaving all other fields unchanged. -/
theorem c7_mark_failed_counterexample :
    (DownloadItem.mark_failed
      { url := "u", id := "1_1", title := "", status := .downloading,
        progress := 10, error := none, output_path := none, added_at := 0,
        started_at := none, completed_at := none, retries := 0 }
      "boom").started_at = none ∧
    (DownloadItem.mark_failed
      { url := "u", id := "1_1", title := "", status := .downloading,
        progress := 10, error := none, output_path := none, added_at := 0,
        started_at := none, completed_at := none, retries := 0 }
      "boom").completed_at = none ∧
    (DownloadItem.mark_failed
      { url := "u", id := "1_1", title := "", status := .downloading,
        progress := 10, error := none, output_path := none, added_at := 0,
        started_at := none, completed_at := none, retries := 0 }
      "boom").error = some "boom" := by
  refine ⟨rfl, rfl, rfl⟩

/-- C7 (amended): mark_started sets status and started_at; mark_completed
sets status, completed_at and progress = 100 (and output_path only when one
is passed); mark_failed sets status and error and touches no timestamp.
Each method leaves every other field unchanged. -/
theorem c7_mark_methods_frame (x : DownloadItem) (now : ℕ) (e : String) :
    (DownloadItem.mark_started x now =
      { x with status := .downloading, started_at := some now }) ∧
    (DownloadItem.mark_completed x none now =
      { x with status := .completed, completed_at := some now,
               progress := 100 }) ∧
    (DownloadItem.mark_failed x e =
      { x with status := .failed, error := some e }) := by
  refine ⟨rfl, rfl, rfl⟩

/-- The EditHistory class from src/ytdl_app/project/history.py. Each stack
entry is a HistoryEntry (state, description). Stacks are stored with the
most recent entry FIRST (the Python lists keep it last); eviction of the
oldest entry (Python pop(0)) is therefore dropLast here. -/
structure EditHistory (T : Type) where
  undo_stack : List (T × String)
  redo_stack : List (T × String)
  max_history : ℕ

/-- EditHistory(max_history): both stacks start empty. -/
def EditHistory.new (T : Type) (max_history : ℕ) : EditHistory T :=
  { undo_stack := [], redo_stack := [], max_history := max_history }

/-- EditHistory.push: append the entry, clear redo, evict the oldest entry
when the stack exceeds max_history. -/
def EditHistory.push (h : EditHistory T) (state : T) (description : String) :
    EditHistory T :=
  let u := (state, description) :: h.undo_stack
  { h with undo_stack := if u.length > h.max_history then u.dropLast else u,
           redo_stack := [] }

/-- EditHistory.undo: returns None when at most one entry remains,
otherwise moves the top entry to the redo stack and returns the new top
state. -/
def EditHistory.undo (h : EditHistory T) : Option T × EditHistory T :=
  if h.undo_stack.length ≤ 1 then (none, h)
  else
    match h.undo_stack with
    | [] => (none, h)
    | current :: rest =>
      (rest.head?.map Prod.fst,
       { h with undo_stack := rest, redo_stack := current :: h.redo_stack })

/-- EditHistory.redo: returns None when the redo stack is empty, otherwise
moves its top entry back to the undo stack and returns its state. -/
def EditHistory.redo (h : EditHistory T) : Option T × EditHistory T :=
  match h.redo_stack with
  | [] => (none, h)
  | e :: rest =>
    (some e.1, { h with undo_stack := e :: h.undo_stack, redo_stack := rest })

/-- C4 counterexample: after pushes 1, 2, 3 and one undo, redo returns
state 3 (the state that was undone), not state 2 as the claim asserts. -/
theorem c4_redo_counterexample :
    (((((EditHistory.new ℕ 50).push 1 "a").push 2 "b").push 3
        "c").undo.2.redo.1 = some 3) ∧
    (((((EditHistory.new ℕ 50).push 1 "a").push 2 "b").push 3
        "c").undo.2.redo.1 ≠ some 2) := by
  refine ⟨rfl, by decide⟩

/-- C4 (amended): after pushes P1, P2, P3 on a fresh history (default
max_history 50), the first undo returns P2, a second undo returns P1, a
third undo returns none (the stack never drops below one entry via undo),
redo right after the first undo returns P3 (the undone state, not P2), and
a push of P4 after one undo clears the redo stack so redo returns none. -/
theorem c4_edit_history_undo_redo {T : Type} (P1 P2 P3 P4 : T)
    (d1 d2 d3 d4 : String) :
    (((((EditHistory.new T 50).push P1 d1).push P2 d2).push P3
        d3).undo.1 = some P2) ∧
    (((((EditHistory.new T 50).push P1 d1).push P2 d2).push P3
        d3).undo.2.undo.1 = some P1) ∧
    (((((EditHistory.new T 50).push P1 d1).push P2 d2).push P3
        d3).undo.2.undo.2.undo.1 = none) ∧
    (((((EditHistory.new T 50).push P1 d1).push P2 d2).push P3
        d3).undo.2.redo.1 = some P3) ∧
    ((((((EditHistory.new T 50).push P1 d1).push P2 d2).push P3
        d3).undo.2.push P4 d4).redo.1 = none) := by
  refine ⟨rfl, rfl, rfl, rfl, rfl⟩

/-- Result of running Downloader._download_with_retry
(src/ytdl_app/download/downloader.py): how many times extract_info was
called, the sequence of time.sleep durations in order (each recorded right
before the following attempt), and either the returned info or the message
of the raised DownloadError. -/
structure RetryTrace (α : Type) where
  attempts : ℕ
  sleeps : List Rat
  result : Except String α

/-- f-string rendering of the last_error variable (None prints as None). -/
def lastErrorStr : Option String → String
  | none => "None"
  | some e => e

/-- The body of the for-loop of _download_with_retry, from the given
attempt index with the given number of loop iterations remaining.
outcomes gives each attempt's result from the extraction library
(Except.error models yt_dlp.DownloadError with its message). -/
def retryGo (outcomes : ℕ → Except String α) (retry_sleep : Rat)
    (retries : ℕ) : ℕ → ℕ → Option String → RetryTrace α
  | attempt, 0, lastErr =>
    { attempts := attempt, sleeps := [],
      result := .error ("Download failed: " ++ lastErrorStr lastErr) }
  | attempt, r + 1, _ =>
    match outcomes attempt with
    | .ok info => { attempts := attempt + 1, sleeps := [], result := .ok info }
    | .error e =>
      if attempt < retries then
        let tr := retryGo outcomes retry_sleep retries (attempt + 1) r (some e)
        { attempts := tr.attempts, sleeps := retry_sleep :: tr.sleeps,
          result := tr.result }
      else
        { attempts := attempt + 1, sleeps := [],
          result := .error ("Download failed after " ++ toString (attempt + 1)
                            ++ " attempts: " ++ e) }

/-- Downloader._download_with_retry: for attempt in range(retries + 1). -/
def downloadWithRetry (retries : ℕ) (retry_sleep : Rat)
    (outcomes : ℕ → Except String α) : RetryTrace α :=
  retryGo outcomes retry_sleep retries 0 (retries + 1) none

/-- C1: with retries = 2 and an extraction call failing on every attempt,
the downloader makes exactly 3 attempts, sleeps retry_sleep exactly twice
(between consecutive attempts, never after the final one), and raises a
DownloadError whose message reports 3 attempts and wraps the last
underlying failure. -/
theorem c1_retry_exhaustion {α : Type} (errs : ℕ → String) (retry_sleep : Rat) :
    downloadWithRetry (α := α) 2 retry_sleep (fun n => .error (errs n)) =
      { attempts := 3, sleeps := [retry_sleep, retry_sleep],
        result := .error ("Download failed after 3 attempts: " ++ errs 2) } := by
  rfl

/-! ### The DownloadQueue (src/ytdl_app/download/queue.py)

self._items is a Python dict keyed by item id, modelled as an association
list in insertion order; self._queue is a FIFO of ids, modelled as a list
(front first); the queue file is modelled by whether a path was supplied
(queueFile) and the decoded snapshot last written to it (fileContent,
none while nothing has been written). The progress callback reads the
item and returns None, so it does not appear in the state. -/

/-- Lookup in a Python dict modelled as an association list. -/
def dictGet : List (String × α) → String → Option α
  | [], _ => none
  | p :: rest, k => if p.1 = k then some p.2 else dictGet rest k

/-- Python dict assignment d[k] = v: replaces in place (keys are unique in
a dict, and reassignment keeps the key's position), appends when absent. -/
def dictSet : List (String × α) → String → α → List (String × α)
  | [], k, v => [(k, v)]
  | p :: rest, k, v => if p.1 = k then (k, v) :: rest else p :: dictSet rest k v

/-- In-place mutation of the value stored under an existing key. -/
def dictModify : List (String × α) → String → (α → α) → List (String × α)
  | [], _, _ => []
  | p :: rest, k, f =>
    if p.1 = k then (p.1, f p.2) :: rest else p :: dictModify rest k f

/-- State of a DownloadQueue. -/
structure DownloadQueue where
  items : List (String × DownloadItem)
  fifo : List String
  paused : Bool
  queueFile : Bool
  fileContent : Option (List ItemDict)

/-- The snapshot _save writes: item.to_dict() for the dict values in
order. -/
def snapshotOf (items : List (String × DownloadItem)) : List ItemDict :=
  items.map fun p => p.2.to_dict

/-- DownloadQueue._save: rewrites the snapshot when a queue file path was
supplied, otherwise returns immediately. -/
def DownloadQueue.save (s : DownloadQueue) : DownloadQueue :=
  if s.queueFile then { s with fileContent := some (snapshotOf s.items) }
  else s

/-- DownloadQueue.add: create the item, store it under its id, enqueue the
id, persist, return the item. -/
def DownloadQueue.add (s : DownloadQueue) (url title : String) (h : ℤ)
    (t now : ℕ) : DownloadItem × DownloadQueue :=
  let item := DownloadItem.new url title h t now
  (item, DownloadQueue.save
    { s with items := dictSet s.items item.id item,
             fifo := s.fifo ++ [item.id] })

/-- DownloadQueue.add_batch: one insertion per url (each with its own
hash/time/now environment), then a single persist. -/
def DownloadQueue.add_batch (s : DownloadQueue)
    (urls : List (String × ℤ × ℕ × ℕ)) : DownloadQueue :=
  DownloadQueue.save
    (urls.foldl
      (fun acc u =>
        let item := DownloadItem.new u.1 "" u.2.1 u.2.2.1 u.2.2.2
        { acc with items := dictSet acc.items item.id item,
                   fifo := acc.fifo ++ [item.id] })
      s)

/-- DownloadQueue.get_next's recursion over the FIFO: pop an id; skip and
discard it when it no longer refers to a pending item; the Empty exception
on an exhausted queue yields None. -/
def getNextAux (items : List (String × DownloadItem)) :
    List String → Option DownloadItem × List String
  | [] => (none, [])
  | id :: rest =>
    match dictGet items id with
    | some item =>
      if item.status = .pending then (some item, rest)
      else getNextAux items rest
    | none => getNextAux items rest

/-- DownloadQueue.get_next: returns None without popping when the
queue-wide pause flag is set. Does not persist and does not mutate items. -/
def DownloadQueue.get_next (s : DownloadQueue) :
    Option DownloadItem × DownloadQueue :=
  if s.paused then (none, s)
  else
    let r := getNextAux s.items s.fifo
    (r.1, { s with fifo := r.2 })

/-- DownloadQueue.update_progress: mutates the item's progress in place
when the id is present. There is no _save call in this method. -/
def DownloadQueue.update_progress (s : DownloadQueue) (item_id : String)
    (progress : Rat) : DownloadQueue :=
  if (dictGet s.items item_id).isSome then
    let items' := dictModify s.items item_id
      (fun it => { it with progress := progress })
    { s with items := items' }
  else s

/-- DownloadQueue.update_status: routes DOWNLOADING, COMPLETED and FAILED
through the item's mark methods, sets any other status directly, and
persists — all only when the id is present. -/
def DownloadQueue.update_status (s : DownloadQueue) (item_id : String)
    (status : DownloadStatus) (error : Option String) (now : ℕ) :
    DownloadQueue :=
  if (dictGet s.items item_id).isSome then
    let items' := dictModify s.items item_id (fun it =>
      match status with
      | .downloading => it.mark_started now
      | .completed => it.mark_completed none now
      | .failed => it.mark_failed (error.getD "Unknown error")
      | _ => { it with status := status })
    DownloadQueue.save { s with items := items' }
  else s

/-- DownloadQueue.pause: the Python guard is `if item_id and item_id in
self._items`, so a missing id, an empty-string id (falsy) or an id not in
the dict all fall through to setting the queue-wide flag. Persists in
every case. -/
def DownloadQueue.pause (s : DownloadQueue) (item_id : Option String) :
    DownloadQueue :=
  match item_id with
  | some id =>
    if id ≠ "" ∧ (dictGet s.items id).isSome then
      let items' := dictModify s.items id
        (fun it => { it with status := .paused })
      DownloadQueue.save { s with items := items' }
    else DownloadQueue.save { s with paused := true }
  | none => DownloadQueue.save { s with paused := true }

/-- DownloadQueue.resume: same guard shape as pause; a present item is
re-enqueued (and set back to PENDING) only when its status is PAUSED.
Persists in every case. -/
def DownloadQueue.resume (s : DownloadQueue) (item_id : Option String) :
    DownloadQueue :=
  match item_id with
  | some id =>
    if id ≠ "" then
      match dictGet s.items id with
      | some it =>
        if it.status = .paused then
          let items' := dictModify s.items id
            (fun x => { x with status := .pending })
          DownloadQueue.save { s with items := items', fifo := s.fifo ++ [id] }
        else DownloadQueue.save s
      | none => DownloadQueue.save { s with paused := false }
    else DownloadQueue.save { s with paused := false }
  | none => DownloadQueue.save { s with paused := false }

/-- DownloadQueue.cancel: sets the item's status to CANCELLED and persists
when the id is present; otherwise returns False without change. -/
def DownloadQueue.cancel (s : DownloadQueue) (item_id : String) :
    Bool × DownloadQueue :=
  match dictGet s.items item_id with
  | some _ =>
    let items' := dictModify s.items item_id
      (fun it => { it with status := .cancelled })
    (true, DownloadQueue.save { s with items := items' })
  | none => (false, s)

/-- DownloadQueue.retry: only a FAILED item is reset to PENDING with its
error cleared, its retries incremented and its id re-enqueued. -/
def DownloadQueue.retry (s : DownloadQueue) (item_id : String) :
    Bool × DownloadQueue :=
  match dictGet s.items item_id with
  | some it =>
    if it.status = .failed then
      let items' := dictModify s.items item_id
        (fun x => { x with status := .pending, error := none,
                           retries := x.retries + 1 })
      (true, DownloadQueue.save { s with items := items',
                                         fifo := s.fifo ++ [item_id] })
    else (false, s)
  | none => (false, s)

/-- DownloadQueue.clear_completed: drops COMPLETED and CANCELLED items,
persists, returns how many were removed. -/
def DownloadQueue.clear_completed (s : DownloadQueue) : ℕ × DownloadQueue :=
  let isDone : String × DownloadItem → Bool := fun p =>
    p.2.status = DownloadStatus.completed ∨ p.2.status = DownloadStatus.cancelled
  ((s.items.filter isDone).length,
   DownloadQueue.save { s with items := s.items.filter fun p => !(isDone p) })

/-! ### Association-list lemmas -/

lemma dictGet_set_self (l : List (String × α)) (k : String) (v : α) :
    dictGet (dictSet l k v) k = some v := by
  induction l with
  | nil => simp [dictSet, dictGet]
  | cons p rest ih =>
    by_cases h : p.1 = k
    · simp [dictSet, h, dictGet]
    · simp [dictSet, h, dictGet, ih]

lemma dictGet_set_ne (l : List (String × α)) (k k' : String) (v : α)
    (hk : k' ≠ k) : dictGet (dictSet l k v) k' = dictGet l k' := by
  induction l with
  | nil => simp [dictSet, dictGet, Ne.symm hk]
  | cons p rest ih =>
    by_cases h : p.1 = k
    · simp [dictSet, h, dictGet, Ne.symm hk]
    · simp [dictSet, h, dictGet, ih]

lemma dictSet_length (l : List (String × α)) (k : String) (v : α)
    (hmem : (dictGet l k).isSome = true) :
    (dictSet l k v).length = l.length := by
  induction l with
  | nil => simp [dictGet] at hmem
  | cons p rest ih =>
    by_cases h : p.1 = k
    · simp [dictSet, h]
    · simp [dictGet, h] at hmem
      simp [dictSet, h, ih hmem]

lemma dictGet_modify_self (l : List (String × α)) (k : String) (f : α → α)
    (v : α) (hv : dictGet l k = some v) :
    dictGet (dictModify l k f) k = some (f v) := by
  induction l with
  | nil => simp [dictGet] at hv
  | cons p rest ih =>
    by_cases h : p.1 = k
    · simp [dictGet, h] at hv
      simp [dictModify, h, dictGet, hv]
    · simp [dictGet, h] at hv
      simp [dictModify, h, dictGet, ih hv]

lemma dictGet_modify_ne (l : List (String × α)) (k k' : String) (f : α → α)
    (hk : k' ≠ k) : dictGet (dictModify l k f) k' = dictGet l k' := by
  induction l with
  | nil => simp [dictModify]
  | cons p rest ih =>
    by_cases h : p.1 = k
    · simp [dictModify, h, dictGet, Ne.symm hk]
    · simp [dictModify, h, dictGet, ih]

lemma save_items (s : DownloadQueue) : (DownloadQueue.save s).items = s.items := by
  unfold DownloadQueue.save
  split <;> rfl

lemma save_fifo (s : DownloadQueue) : (DownloadQueue.save s).fifo = s.fifo := by
  unfold DownloadQueue.save
  split <;> rfl

lemma save_paused (s : DownloadQueue) :
    (DownloadQueue.save s).paused = s.paused := by
  unfold DownloadQueue.save
  split <;> rfl

lemma save_queueFile (s : DownloadQueue) :
    (DownloadQueue.save s).queueFile = s.queueFile := by
  unfold DownloadQueue.save
  split <;> rfl

/-- A queue state whose file holds the snapshot of its current items. -/
def snapshotSaved (s : DownloadQueue) : Prop :=
  s.fileContent = some (snapshotOf s.items)

lemma snapshotSaved_save (s : DownloadQueue) (hq : s.queueFile = true) :
    snapshotSaved (DownloadQueue.save s) := by
  unfold snapshotSaved DownloadQueue.save
  simp [hq]

lemma new_id (url title : String) (h : ℤ) (t now : ℕ) :
    (DownloadItem.new url title h t now).id = mkItemId h t := by
  simp [DownloadItem.new, DownloadItem.postInit]

/-- C10: a DownloadItem id is exactly the hash-of-url / millisecond-time
string, and add performs no collision check: when the freshly generated id
already keys an item, the old item is silently replaced in the mapping,
the id is enqueued once more in the FIFO, and the item count stays the
same. h stands for hash(url) and t for int(time.time() * 1000). -/
theorem c10_add_id_collision (s : DownloadQueue) (url title : String)
    (h : ℤ) (t now : ℕ)
    (hcol : (dictGet s.items (mkItemId h t)).isSome = true) :
    ((DownloadQueue.add s url title h t now).1.id = mkItemId h t) ∧
    ((DownloadQueue.add s url title h t now).2.items.length =
      s.items.length) ∧
    (dictGet (DownloadQueue.add s url title h t now).2.items (mkItemId h t) =
      some (DownloadQueue.add s url title h t now).1) ∧
    ((DownloadQueue.add s url title h t now).2.fifo =
      s.fifo ++ [mkItemId h t]) := by
  refine ⟨new_id url title h t now, ?_, ?_, ?_⟩
  · show (DownloadQueue.save _).items.length = _
    rw [save_items]
    simpa [new_id] using dictSet_length s.items (mkItemId h t)
      (DownloadItem.new url title h t now) hcol
  · show dictGet (DownloadQueue.save _).items _ = _
    rw [save_items]
    simpa [new_id] using dictGet_set_self s.items (mkItemId h t)
      (DownloadItem.new url title h t now)
  · show (DownloadQueue.save _).fifo = _
    rw [save_fifo]
    simp [new_id]

/-- Witness for c10_add_id_collision: adding the same url twice with the
same hash and the same millisecond clock. -/
theorem c10_add_id_collision_witness :
    ((DownloadQueue.add
        (DownloadQueue.add
          { items := [], fifo := [], paused := false, queueFile := false,
            fileContent := none } "u" "" 7 5 0).2 "u" "" 7 5 1).1.id =
      mkItemId 7 5) ∧
    ((DownloadQueue.add
        (DownloadQueue.add
          { items := [], fifo := [], paused := false, queueFile := false,
            fileContent := none } "u" "" 7 5 0).2 "u" "" 7 5 1).2.items.length =
      (DownloadQueue.add
        { items := [], fifo := [], paused := false, queueFile := false,
          fileContent := none } "u" "" 7 5 0).2.items.length) ∧
    (dictGet (DownloadQueue.add
        (DownloadQueue.add
          { items := [], fifo := [], paused := false, queueFile := false,
            fileContent := none } "u" "" 7 5 0).2 "u" "" 7 5 1).2.items
        (mkItemId 7 5) =
      some (DownloadQueue.add
        (DownloadQueue.add
          { items := [], fifo := [], paused := false, queueFile := false,
            fileContent := none } "u" "" 7 5 0).2 "u" "" 7 5 1).1) ∧
    ((DownloadQueue.add
        (DownloadQueue.add
          { items := [], fifo := [], paused := false, queueFile := false,
            fileContent := none } "u" "" 7 5 0).2 "u" "" 7 5 1).2.fifo =
      (DownloadQueue.add
        { items := [], fifo := [], paused := false, queueFile := false,
          fileContent := none } "u" "" 7 5 0).2.fifo ++ [mkItemId 7 5]) :=
  c10_add_id_collision
    (DownloadQueue.add
      { items := [], fifo := [], paused := false, queueFile := false,
        fileContent := none } "u" "" 7 5 0).2 "u" "" 7 5 1 (by decide)

/-- A sample pending item under id "a", used by concrete queue states. -/
def sampleItem : DownloadItem :=
  { url := "u", id := "a", title := "", status := .pending, progress := 0,
    error := none, output_path := none, added_at := 0, started_at := none,
    completed_at := none, retries := 0 }

/-- A queue with one pending item and a queue file whose content is the
snapshot _save would have written last. -/
def sampleQueue : DownloadQueue :=
  { items := [("a", sampleItem)], fifo := ["a"], paused := false,
    queueFile := true, fileContent := some (snapshotOf [("a", sampleItem)]) }

/-- C5 counterexample: update_progress mutates the item (progress 0 to 50)
but never writes the queue file, so after it returns the file no longer
holds the snapshot of the current items — the claim that every mutating
call rewrites the snapshot before returning is false. -/
theorem c5_update_progress_counterexample :
    (DownloadQueue.update_progress sampleQueue "a" 50).queueFile = true ∧
    (dictGet (DownloadQueue.update_progress sampleQueue "a" 50).items
      "a").isSome = true ∧
    (DownloadQueue.update_progress sampleQueue "a" 50).fileContent ≠
      some (snapshotOf
        (DownloadQueue.update_progress sampleQueue "a" 50).items) := by
  refine ⟨rfl, rfl, by decide⟩

/-- C5 (amended): with a queue file configured, every mutating call except
update_progress rewrites the snapshot before returning (update_status,
cancel and retry whenever they find their target and change state);
update_progress never writes the file at all. -/
theorem c5_persistence (s : DownloadQueue) (hq : s.queueFile = true)
    (url title : String) (h : ℤ) (t now : ℕ)
    (urls : List (String × ℤ × ℕ × ℕ)) (item_id : String) (progress : Rat)
    (status : DownloadStatus) (error : Option String)
    (idOpt : Option String) :
    snapshotSaved (DownloadQueue.add s url title h t now).2 ∧
    snapshotSaved (DownloadQueue.add_batch s urls) ∧
    ((dictGet s.items item_id).isSome = true →
      snapshotSaved (DownloadQueue.update_status s item_id status error now)) ∧
    snapshotSaved (DownloadQueue.pause s idOpt) ∧
    snapshotSaved (DownloadQueue.resume s idOpt) ∧
    ((DownloadQueue.cancel s item_id).1 = true →
      snapshotSaved (DownloadQueue.cancel s item_id).2) ∧
    ((DownloadQueue.retry s item_id).1 = true →
      snapshotSaved (DownloadQueue.retry s item_id).2) ∧
    snapshotSaved (DownloadQueue.clear_completed s).2 ∧
    (DownloadQueue.update_progress s item_id progress).fileContent =
      s.fileContent := by
  have hbatch : ∀ (us : List (String × ℤ × ℕ × ℕ)) (acc : DownloadQueue),
      (us.foldl
        (fun acc u =>
          let item := DownloadItem.new u.1 "" u.2.1 u.2.2.1 u.2.2.2
          { acc with items := dictSet acc.items item.id item,
                     fifo := acc.fifo ++ [item.id] })
        acc).queueFile = acc.queueFile := by
    intro us
    induction us with
    | nil => intro acc; rfl
    | cons u rest ih => intro acc; exact ih _
  refine ⟨?_, ?_, ?_, ?_, ?_, ?_, ?_, ?_, ?_⟩
  · exact snapshotSaved_save _ hq
  · exact snapshotSaved_save _ ((hbatch urls s).trans hq)
  · intro hmem
    unfold DownloadQueue.update_status
    rw [if_pos hmem]
    exact snapshotSaved_save _ hq
  · unfold DownloadQueue.pause
    cases idOpt with
    | none => exact snapshotSaved_save _ hq
    | some id =>
      dsimp only
      repeat' split
      all_goals exact snapshotSaved_save _ hq
  · unfold DownloadQueue.resume
    cases idOpt with
    | none => exact snapshotSaved_save _ hq
    | some id =>
      dsimp only
      repeat' split
      all_goals exact snapshotSaved_save _ hq
  · intro hres
    unfold DownloadQueue.cancel at hres ⊢
    cases hd : dictGet s.items item_id with
    | none => rw [hd] at hres; exact Bool.noConfusion hres
    | some it => exact snapshotSaved_save _ hq
  · intro hres
    unfold DownloadQueue.retry at hres ⊢
    cases hd : dictGet s.items item_id with
    | none => rw [hd] at hres; exact Bool.noConfusion hres
    | some it =>
      by_cases hf : it.status = DownloadStatus.failed
      · simp only [hf]
        simp only [reduceIte]
        exact snapshotSaved_save _ hq
      · rw [hd] at hres
        simp [hf] at hres
  · exact snapshotSaved_save _ hq
  · unfold DownloadQueue.update_progress
    split <;> rfl

/-- Witness for c5_persistence at the sample queue. -/
theorem c5_persistence_witness :
    snapshotSaved (DownloadQueue.add sampleQueue "u" "" 0 0 0).2 ∧
    snapshotSaved (DownloadQueue.add_batch sampleQueue []) ∧
    ((dictGet sampleQueue.items "a").isSome = true →
      snapshotSaved
        (DownloadQueue.update_status sampleQueue "a" .pending none 0)) ∧
    snapshotSaved (DownloadQueue.pause sampleQueue (some "a")) ∧
    snapshotSaved (DownloadQueue.resume sampleQueue (some "a")) ∧
    ((DownloadQueue.cancel sampleQueue "a").1 = true →
      snapshotSaved (DownloadQueue.cancel sampleQueue "a").2) ∧
    ((DownloadQueue.retry sampleQueue "a").1 = true →
      snapshotSaved (DownloadQueue.retry sampleQueue "a").2) ∧
    snapshotSaved (DownloadQueue.clear_completed sampleQueue).2 ∧
    (DownloadQueue.update_progress sampleQueue "a" 50).fileContent =
      sampleQueue.fileContent :=
  c5_persistence sampleQueue rfl "u" "" 0 0 0 [] "a" 50 .pending none (some "a")

/-- The empty queue without a queue file. -/
def emptyQueue : DownloadQueue :=
  { items := [], fifo := [], paused := false, queueFile := false,
    fileContent := none }

/-- C6 counterexample: pause with the string id "x", which is in no item
of the queue, falls through to the else branch and sets the queue-wide
pause flag, contradicting the claim that a call with a string id never
changes it. -/
theorem c6_pause_absent_id_counterexample :
    emptyQueue.paused = false ∧
    (DownloadQueue.pause emptyQueue (some "x")).paused = true := by
  refine ⟨rfl, rfl⟩

lemma pause_some_eq (s : DownloadQueue) (id : String) (it : DownloadItem)
    (hid : id ≠ "") (hit : dictGet s.items id = some it) :
    DownloadQueue.pause s (some id) =
      DownloadQueue.save
        { s with
            items := dictModify s.items id
              (fun x => { x with status := .paused }) } := by
  unfold DownloadQueue.pause
  dsimp only
  rw [if_pos ⟨hid, by rw [hit]; rfl⟩]

lemma resume_some_eq (s : DownloadQueue) (id : String) (it : DownloadItem)
    (hid : id ≠ "") (hit : dictGet s.items id = some it) :
    DownloadQueue.resume s (some id) =
      if it.status = .paused then
        DownloadQueue.save
          { s with
              items := dictModify s.items id
                (fun x => { x with status := .pending }),
              fifo := s.fifo ++ [id] }
      else DownloadQueue.save s := by
  unfold DownloadQueue.resume
  dsimp only
  rw [if_pos hid, hit]

lemma pause_none_eq (s : DownloadQueue) :
    DownloadQueue.pause s none = DownloadQueue.save { s with paused := true } :=
  rfl

lemma resume_none_eq (s : DownloadQueue) :
    DownloadQueue.resume s none =
      DownloadQueue.save { s with paused := false } :=
  rfl

/-- C6 (amended): for an id that is non-empty and present in the queue,
pause sets only that item's status to PAUSED and resume re-enqueues the id
(setting it back to PENDING) only when that item's status was PAUSED;
neither touches the queue-wide flag, any other item, or (for pause) the
FIFO. The queue-wide flag is toggled by a call with no id — and also, the
correction the code forces, by a call with an empty or absent id. -/
theorem c6_pause_resume_item_scoped (s : DownloadQueue) (id k : String)
    (it : DownloadItem) (hid : id ≠ "") (hit : dictGet s.items id = some it)
    (hk : k ≠ id) :
    (dictGet (DownloadQueue.pause s (some id)).items id =
      some { it with status := .paused }) ∧
    (dictGet (DownloadQueue.pause s (some id)).items k = dictGet s.items k) ∧
    ((DownloadQueue.pause s (some id)).paused = s.paused) ∧
    ((DownloadQueue.pause s (some id)).fifo = s.fifo) ∧
    ((DownloadQueue.resume s (some id)).paused = s.paused) ∧
    (it.status = .paused →
      dictGet (DownloadQueue.resume s (some id)).items id =
        some { it with status := .pending } ∧
      (DownloadQueue.resume s (some id)).fifo = s.fifo ++ [id]) ∧
    (it.status ≠ .paused →
      (DownloadQueue.resume s (some id)).items = s.items ∧
      (DownloadQueue.resume s (some id)).fifo = s.fifo) ∧
    (dictGet (DownloadQueue.resume s (some id)).items k = dictGet s.items k) ∧
    ((DownloadQueue.pause s none).paused = true ∧
      (DownloadQueue.pause s none).items = s.items ∧
      (DownloadQueue.pause s none).fifo = s.fifo) ∧
    ((DownloadQueue.resume s none).paused = false ∧
      (DownloadQueue.resume s none).items = s.items ∧
      (DownloadQueue.resume s none).fifo = s.fifo) := by
  refine ⟨?_, ?_, ?_, ?_, ?_, ?_, ?_, ?_, ?_, ?_⟩
  · rw [pause_some_eq s id it hid hit, save_items]
    exact dictGet_modify_self s.items id _ it hit
  · rw [pause_some_eq s id it hid hit, save_items]
    exact dictGet_modify_ne s.items id k _ hk
  · rw [pause_some_eq s id it hid hit, save_paused]
  · rw [pause_some_eq s id it hid hit, save_fifo]
  · rw [resume_some_eq s id it hid hit]
    split <;> rw [save_paused]
  · intro hp
    rw [resume_some_eq s id it hid hit, if_pos hp]
    refine ⟨?_, ?_⟩
    · rw [save_items]
      exact dictGet_modify_self s.items id _ it hit
    · rw [save_fifo]
  · intro hp
    rw [resume_some_eq s id it hid hit, if_neg hp]
    exact ⟨save_items s, save_fifo s⟩
  · rw [resume_some_eq s id it hid hit]
    split
    · rw [save_items]
      exact dictGet_modify_ne s.items id k _ hk
    · rw [save_items]
  · exact ⟨by rw [pause_none_eq, save_paused], by rw [pause_none_eq, save_items],
      by rw [pause_none_eq, save_fifo]⟩
  · exact ⟨by rw [resume_none_eq, save_paused], by rw [resume_none_eq, save_items],
      by rw [resume_none_eq, save_fifo]⟩

/-- Witness for c6_pause_resume_item_scoped at the sample queue. -/
theorem c6_pause_resume_item_scoped_witness :
    (dictGet (DownloadQueue.pause sampleQueue (some "a")).items "a" =
      some { sampleItem with status := .paused }) ∧
    (dictGet (DownloadQueue.pause sampleQueue (some "a")).items "b" =
      dictGet sampleQueue.items "b") ∧
    ((DownloadQueue.pause sampleQueue (some "a")).paused =
      sampleQueue.paused) ∧
    ((DownloadQueue.pause sampleQueue (some "a")).fifo = sampleQueue.fifo) ∧
    ((DownloadQueue.resume sampleQueue (some "a")).paused =
      sampleQueue.paused) ∧
    (sampleItem.status = .paused →
      dictGet (DownloadQueue.resume sampleQueue (some "a")).items "a" =
        some { sampleItem with status := .pending } ∧
      (DownloadQueue.resume sampleQueue (some "a")).fifo =
        sampleQueue.fifo ++ ["a"]) ∧
    (sampleItem.status ≠ .paused →
      (DownloadQueue.resume sampleQueue (some "a")).items =
        sampleQueue.items ∧
      (DownloadQueue.resume sampleQueue (some "a")).fifo =
        sampleQueue.fifo) ∧
    (dictGet (DownloadQueue.resume sampleQueue (some "a")).items "b" =
      dictGet sampleQueue.items "b") ∧
    ((DownloadQueue.pause sampleQueue none).paused = true ∧
      (DownloadQueue.pause sampleQueue none).items = sampleQueue.items ∧
      (DownloadQueue.pause sampleQueue none).fifo = sampleQueue.fifo) ∧
    ((DownloadQueue.resume sampleQueue none).paused = false ∧
      (DownloadQueue.resume sampleQueue none).items = sampleQueue.items ∧
      (DownloadQueue.resume sampleQueue none).fifo = sampleQueue.fifo) :=
  c6_pause_resume_item_scoped sampleQueue "a" "b" sampleItem (by decide) rfl
    (by decide)

/-! ### get_next: returned items are pending; skipped ids are discarded -/

lemma getNextAux_pending (items : List (String × DownloadItem)) :
    ∀ (fifo : List String) (it : DownloadItem) (f' : List String),
      getNextAux items fifo = (some it, f') → it.status = .pending := by
  intro fifo
  induction fifo with
  | nil => intro it f' hres; simp [getNextAux] at hres
  | cons x rest ih =>
    intro it f' hres
    cases hd : dictGet items x with
    | some itx =>
      simp only [getNextAux, hd] at hres
      by_cases hs : itx.status = .pending
      · rw [if_pos hs] at hres
        have h1 : some itx = some it := congrArg Prod.fst hres
        rw [← Option.some.inj h1]
        exact hs
      · rw [if_neg hs] at hres
        exact ih it f' hres
    | none =>
      simp only [getNextAux, hd] at hres
      exact ih it f' hres

lemma get_next_of_not_paused (s : DownloadQueue) (hp : s.paused = false) :
    DownloadQueue.get_next s =
      ((getNextAux s.items s.fifo).1,
       { s with fifo := (getNextAux s.items s.fifo).2 }) := by
  unfold DownloadQueue.get_next
  rw [hp]
  rfl

lemma get_next_pending (s : DownloadQueue) (it : DownloadItem)
    (hres : (DownloadQueue.get_next s).1 = some it) :
    it.status = .pending := by
  by_cases hp : s.paused = true
  · unfold DownloadQueue.get_next at hres
    simp [hp] at hres
  · have hp' : s.paused = false := by
      revert hp
      cases s.paused <;> simp
    rw [get_next_of_not_paused s hp'] at hres
    exact getNextAux_pending s.items s.fifo it _ (by rw [← hres])

lemma get_next_items (s : DownloadQueue) :
    (DownloadQueue.get_next s).2.items = s.items := by
  unfold DownloadQueue.get_next
  split <;> rfl

lemma get_next_paused_flag (s : DownloadQueue) :
    (DownloadQueue.get_next s).2.paused = s.paused := by
  unfold DownloadQueue.get_next
  split <;> rfl

/-- Iterated get_next calls: the queue state after n calls. -/
def gnIter (s : DownloadQueue) : ℕ → DownloadQueue
  | 0 => s
  | n + 1 => (DownloadQueue.get_next (gnIter s n)).2

/-- The item returned by the (n+1)-st get_next call. -/
def gnResult (s : DownloadQueue) (n : ℕ) : Option DownloadItem :=
  (DownloadQueue.get_next (gnIter s n)).1

lemma gnResult_pending (s : DownloadQueue) (n : ℕ) (it : DownloadItem)
    (hres : gnResult s n = some it) : it.status = .pending :=
  get_next_pending (gnIter s n) it hres

lemma gnIter_shift (s : DownloadQueue) (m : ℕ) :
    gnIter s (m + 1) = gnIter (DownloadQueue.get_next s).2 m := by
  induction m with
  | zero => rfl
  | succ m ih =>
    show (DownloadQueue.get_next (gnIter s (m + 1))).2 = _
    rw [ih]
    rfl

lemma getNextAux_shrinks (items : List (String × DownloadItem)) :
    ∀ (fifo : List String) (it : DownloadItem) (f' : List String),
      getNextAux items fifo = (some it, f') → f'.length < fifo.length := by
  intro fifo
  induction fifo with
  | nil => intro it f' hres; simp [getNextAux] at hres
  | cons x rest ih =>
    intro it f' hres
    cases hd : dictGet items x with
    | some itx =>
      simp only [getNextAux, hd] at hres
      by_cases hs : itx.status = .pending
      · rw [if_pos hs] at hres
        have h2 : rest = f' := congrArg Prod.snd hres
        rw [← h2]
        simp
      · rw [if_neg hs] at hres
        exact Nat.lt_trans (ih it f' hres) (by simp)
    | none =>
      simp only [getNextAux, hd] at hres
      exact Nat.lt_trans (ih it f' hres) (by simp)

lemma getNextAux_finds (items : List (String × DownloadItem)) :
    ∀ (fifo : List String) (id : String) (it : DownloadItem),
      id ∈ fifo → dictGet items id = some it → it.status = .pending →
      ∃ r f', getNextAux items fifo = (some r, f') ∧ (r = it ∨ id ∈ f') := by
  intro fifo
  induction fifo with
  | nil => intro id it hmem; exact absurd hmem (List.not_mem_nil id)
  | cons x rest ih =>
    intro id it hmem hit hpend
    cases hd : dictGet items x with
    | some itx =>
      by_cases hs : itx.status = .pending
      · refine ⟨itx, rest, by simp [getNextAux, hd, hs], ?_⟩
        by_cases hx : x = id
        · left
          rw [hx, hit] at hd
          exact (Option.some.inj hd).symm
        · right
          cases List.mem_cons.mp hmem with
          | inl hcon => exact absurd hcon.symm hx
          | inr hr => exact hr
      · have hxid : x ≠ id := by
          intro hcon
          rw [hcon, hit] at hd
          exact hs (Option.some.inj hd ▸ hpend)
        have hr : id ∈ rest := by
          cases List.mem_cons.mp hmem with
          | inl hcon => exact absurd hcon.symm hxid
          | inr h2 => exact h2
        obtain ⟨r, f', heq, hor⟩ := ih id it hr hit hpend
        exact ⟨r, f', by simp [getNextAux, hd, hs, heq], hor⟩
    | none =>
      have hxid : x ≠ id := by
        intro hcon
        rw [hcon, hit] at hd
        exact Option.noConfusion hd
      have hr : id ∈ rest := by
        cases List.mem_cons.mp hmem with
        | inl hcon => exact absurd hcon.symm hxid
        | inr h2 => exact h2
      obtain ⟨r, f', heq, hor⟩ := ih id it hr hit hpend
      exact ⟨r, f', by simp [getNextAux, hd, heq], hor⟩

/-- A pending item whose id sits in the FIFO of an unpaused queue is
returned by some later get_next call. -/
lemma gn_reachable (L : ℕ) :
    ∀ (s : DownloadQueue) (id : String) (it : DownloadItem),
      s.fifo.length ≤ L → s.paused = false → id ∈ s.fifo →
      dictGet s.items id = some it → it.status = .pending →
      ∃ m, gnResult s m = some it := by
  induction L with
  | zero =>
    intro s id it hlen _ hmem _ _
    rw [List.length_eq_zero.mp (Nat.le_zero.mp hlen)] at hmem
    exact absurd hmem (List.not_mem_nil id)
  | succ L ih =>
    intro s id it hlen hp hmem hit hpend
    obtain ⟨r, f', heq, hor⟩ :=
      getNextAux_finds s.items s.fifo id it hmem hit hpend
    cases hor with
    | inl hr =>
      refine ⟨0, ?_⟩
      show (DownloadQueue.get_next (gnIter s 0)).1 = some it
      rw [show gnIter s 0 = s from rfl, get_next_of_not_paused s hp, heq, hr]
    | inr hmem' =>
      have hstep : (DownloadQueue.get_next s).2 = { s with fifo := f' } := by
        rw [get_next_of_not_paused s hp, heq]
      have hlen' : f'.length ≤ L :=
        Nat.lt_succ_iff.mp
          (Nat.lt_of_lt_of_le (getNextAux_shrinks s.items s.fifo r f' heq) hlen)
      obtain ⟨m, hm⟩ := ih { s with fifo := f' } id it hlen' hp hmem' hit hpend
      refine ⟨m + 1, ?_⟩
      show (DownloadQueue.get_next (gnIter s (m + 1))).1 = some it
      rw [gnIter_shift, hstep]
      exact hm

lemma cancel_some_eq (s : DownloadQueue) (id : String) (it : DownloadItem)
    (hit : dictGet s.items id = some it) :
    DownloadQueue.cancel s id =
      (true, DownloadQueue.save
        { s with
            items := dictModify s.items id
              (fun x => { x with status := .cancelled }) }) := by
  unfold DownloadQueue.cancel
  rw [hit]

/-- C2: get_next never returns an item whose status is not PENDING; with
the queue-wide pause flag set it returns None without popping the FIFO;
and after a successful cancel(id), no later get_next call in any sequence
of get_next calls ever returns the item that cancel marked CANCELLED (its
stale id is skipped and dropped from the FIFO when reached). -/
theorem c2_get_next_contract (s : DownloadQueue) (it : DownloadItem)
    (id : String) (n : ℕ) :
    ((DownloadQueue.get_next s).1 = some it → it.status = .pending) ∧
    (s.paused = true → DownloadQueue.get_next s = (none, s)) ∧
    ((DownloadQueue.cancel s id).1 = true →
      gnResult (DownloadQueue.cancel s id).2 n = some it →
      dictGet (DownloadQueue.cancel s id).2.items id ≠ some it) := by
  refine ⟨get_next_pending s it, ?_, ?_⟩
  · intro hp
    unfold DownloadQueue.get_next
    rw [if_pos hp]
  · intro hc hres hcontra
    cases hd : dictGet s.items id with
    | none =>
      unfold DownloadQueue.cancel at hc
      rw [hd] at hc
      exact Bool.noConfusion hc
    | some v =>
      rw [cancel_some_eq s id v hd] at hcontra
      dsimp only at hcontra
      rw [save_items, dictGet_modify_self s.items id _ v hd] at hcontra
      have hv : { v with status := DownloadStatus.cancelled } = it :=
        Option.some.inj hcontra
      have hpend := gnResult_pending _ n it hres
      rw [← hv] at hpend
      exact DownloadStatus.noConfusion hpend

/-- Witness for c2_get_next_contract at the sample queue. -/
theorem c2_get_next_contract_witness :
    ((DownloadQueue.get_next sampleQueue).1 = some sampleItem →
      sampleItem.status = .pending) ∧
    (sampleQueue.paused = true →
      DownloadQueue.get_next sampleQueue = (none, sampleQueue)) ∧
    ((DownloadQueue.cancel sampleQueue "a").1 = true →
      gnResult (DownloadQueue.cancel sampleQueue "a").2 0 = some sampleItem →
      dictGet (DownloadQueue.cancel sampleQueue "a").2.items "a" ≠
        some sampleItem) :=
  c2_get_next_contract sampleQueue sampleItem "a" 0

lemma retry_some_failed_eq (s : DownloadQueue) (id : String)
    (it : DownloadItem) (hit : dictGet s.items id = some it)
    (hf : it.status = .failed) :
    DownloadQueue.retry s id =
      (true, DownloadQueue.save
        { s with
            items := dictModify s.items id
              (fun x => { x with status := .pending, error := none,
                                 retries := x.retries + 1 }),
            fifo := s.fifo ++ [id] }) := by
  unfold DownloadQueue.retry
  rw [hit]
  dsimp only
  rw [if_pos hf]

/-- C8: retry(id) returns False and changes nothing when the id is absent
or the item is not FAILED; when the item is FAILED it returns True, resets
the item to PENDING with its error cleared and retries incremented by
exactly one, re-enqueues the id, and (when the queue-wide flag is off) the
reset item is returned by some later get_next call. -/
theorem c8_retry_contract (s : DownloadQueue) (id : String)
    (it : DownloadItem) :
    (dictGet s.items id = none → DownloadQueue.retry s id = (false, s)) ∧
    (dictGet s.items id = some it → it.status ≠ .failed →
      DownloadQueue.retry s id = (false, s)) ∧
    (dictGet s.items id = some it → it.status = .failed →
      ((DownloadQueue.retry s id).1 = true ∧
       dictGet (DownloadQueue.retry s id).2.items id =
         some { it with status := .pending, error := none,
                        retries := it.retries + 1 } ∧
       (DownloadQueue.retry s id).2.fifo = s.fifo ++ [id] ∧
       (s.paused = false →
         ∃ m, gnResult (DownloadQueue.retry s id).2 m =
           some { it with status := .pending, error := none,
                          retries := it.retries + 1 }))) := by
  refine ⟨?_, ?_, ?_⟩
  · intro hd
    unfold DownloadQueue.retry
    rw [hd]
  · intro hd hnf
    unfold DownloadQueue.retry
    rw [hd]
    dsimp only
    rw [if_neg hnf]
  · intro hd hf
    have heq := retry_some_failed_eq s id it hd hf
    refine ⟨by rw [heq], ?_, ?_, ?_⟩
    · rw [heq]
      dsimp only
      rw [save_items, dictGet_modify_self s.items id _ it hd]
    · rw [heq]
      dsimp only
      rw [save_fifo]
    · intro hp
      apply gn_reachable (DownloadQueue.retry s id).2.fifo.length
        (DownloadQueue.retry s id).2 id _ (le_refl _)
      · rw [heq]
        dsimp only
        rw [save_paused]
        exact hp
      · rw [heq]
        dsimp only
        rw [save_fifo]
        simp
      · rw [heq]
        dsimp only
        rw [save_items, dictGet_modify_self s.items id _ it hd]
      · rfl

/-- A FAILED item under id "b". -/
def failedItem : DownloadItem :=
  { url := "u", id := "b", title := "", status := .failed, progress := 0,
    error := some "boom", output_path := none, added_at := 0,
    started_at := none, completed_at := none, retries := 1 }

/-- A queue holding one FAILED item under id "b", without a queue file. -/
def failedQueue : DownloadQueue :=
  { items := [("b", failedItem)], fifo := [], paused := false,
    queueFile := false, fileContent := none }

/-- Witness for c8_retry_contract at a queue with a FAILED item. -/
theorem c8_retry_contract_witness :
    (dictGet failedQueue.items "b" = none →
      DownloadQueue.retry failedQueue "b" = (false, failedQueue)) ∧
    (dictGet failedQueue.items "b" = some failedItem →
      failedItem.status ≠ .failed →
      DownloadQueue.retry failedQueue "b" = (false, failedQueue)) ∧
    (dictGet failedQueue.items "b" = some failedItem →
      failedItem.status = .failed →
      ((DownloadQueue.retry failedQueue "b").1 = true ∧
       dictGet (DownloadQueue.retry failedQueue "b").2.items "b" =
         some { failedItem with status := .pending, error := none,
                                retries := failedItem.retries + 1 } ∧
       (DownloadQueue.retry failedQueue "b").2.fifo =
         failedQueue.fifo ++ ["b"] ∧
       (failedQueue.paused = false →
         ∃ m, gnResult (DownloadQueue.retry failedQueue "b").2 m =
           some { failedItem with status := .pending, error := none,
                                  retries := failedItem.retries + 1 }))) :=
  c8_retry_contract failedQueue "b" failedItem

/-! ### The DownloadArchive (src/ytdl_app/download/archive.py)

The backing file is modelled as its list of lines (a missing file is the
empty list); the lazily loaded set self._entries is modelled as a list of
strings used only through membership; datetime.now().isoformat() inside
the title comment is an explicit ts parameter. -/

/-- Python str.strip(): drop leading and trailing whitespace. Written on
the character list so that the kernel can evaluate it on literals. -/
def pyStrip (s : String) : String :=
  ⟨((s.data.dropWhile Char.isWhitespace).reverse.dropWhile
      Char.isWhitespace).reverse⟩

/-- What _load_entries keeps of one file line: its strip(), provided that
is non-empty and does not start with the comment marker. -/
def parsedLine (l : String) : Option String :=
  let t := pyStrip l
  if t ≠ "" ∧ ¬ t.data.head? = some '#' then some t else none

/-- The entries parsed from a file's lines. -/
def entriesOf (lines : List String) : List String :=
  lines.filterMap parsedLine

/-- State of a DownloadArchive: backing-file lines and the entry cache
(None until _load_entries has run). -/
structure DownloadArchive where
  file : List String
  cache : Option (List String)

/-- DownloadArchive._load_entries: parse the file once, then reuse the
cache. -/
def loadEntries (a : DownloadArchive) : List String × DownloadArchive :=
  match a.cache with
  | some c => (c, a)
  | none => (entriesOf a.file, { a with cache := some (entriesOf a.file) })

/-- The archive line for an (extractor, video_id) pair. -/
def entryLine (e id : String) : String := e ++ " " ++ id

/-- DownloadArchive.contains. -/
def DownloadArchive.contains (a : DownloadArchive) (e id : String) :
    Bool × DownloadArchive :=
  let r := loadEntries a
  (r.1.contains (entryLine e id), r.2)

/-- The comment line add writes before the entry when a truthy (non-empty)
title is given. -/
def commentFor (title : Option String) (ts : String) : List String :=
  match title with
  | some t => if t ≠ "" then ["# " ++ t ++ " - " ++ ts] else []
  | none => []

/-- DownloadArchive.add: no-op when the line is already present, otherwise
append the optional comment and the entry line to the file and extend the
cached set. -/
def DownloadArchive.add (a : DownloadArchive) (e id : String)
    (title : Option String) (ts : String) : DownloadArchive :=
  let r := loadEntries a
  let line := entryLine e id
  if r.1.contains line then r.2
  else { file := r.2.file ++ commentFor title ts ++ [line],
         cache := some (r.1 ++ [line]) }

/-- Insertion into a sorted list of lines. -/
def insertSorted (x : String) : List String → List String
  | [] => [x]
  | y :: ys => if x ≤ y then x :: y :: ys else y :: insertSorted x ys

/-- sorted(entries), as _save writes them. -/
def sortLines : List String → List String
  | [] => []
  | x :: xs => insertSorted x (sortLines xs)

/-- DownloadArchive.remove: when present, drop the line from the set and
rewrite the whole file (sorted, entries only — comments are lost). -/
def DownloadArchive.remove (a : DownloadArchive) (e id : String) :
    Bool × DownloadArchive :=
  let r := loadEntries a
  let line := entryLine e id
  if r.1.contains line then
    let c := r.1.filter (fun x => x ≠ line)
    (true, { file := sortLines c, cache := some c })
  else (false, r.2)

/-- One add or remove call in a history of archive operations. -/
inductive ArchOp where
  | addOp (e id : String) (title : Option String) (ts : String)
  | removeOp (e id : String)

/-- Run one operation, keeping only the state. -/
def applyOp (a : DownloadArchive) : ArchOp → DownloadArchive
  | .addOp e id title ts => a.add e id title ts
  | .removeOp e id => (a.remove e id).2

/-- Run a whole history of operations. -/
def runOps (a : DownloadArchive) (ops : List ArchOp) : DownloadArchive :=
  ops.foldl applyOp a

/-- The net effect of one operation on the set of entry lines. -/
def stepNet (acc : List String) : ArchOp → List String
  | .addOp e id _ _ =>
    if acc.contains (entryLine e id) then acc else acc ++ [entryLine e id]
  | .removeOp e id => acc.filter (fun x => x ≠ entryLine e id)

/-- The net set of entry lines from a starting set. -/
def netFrom (cur : List String) (ops : List ArchOp) : List String :=
  ops.foldl stepNet cur

/-- The net set of entry lines of a history applied to a fresh archive. -/
def netLines (ops : List ArchOp) : List String := netFrom [] ops

/-- A well-formed operation: the entry line it writes parses back to
itself (no leading/trailing whitespace to strip, non-empty, not starting
with a comment marker) and its comment line, if any, parses as a skipped
comment. Removes are always well-formed. -/
def opWF : ArchOp → Prop
  | .addOp e id title ts =>
    parsedLine (entryLine e id) = some (entryLine e id) ∧
    ∀ cl ∈ commentFor title ts, parsedLine cl = none
  | .removeOp _ _ => True

/-- A fresh archive over a file that does not exist yet. -/
def initialArchive : DownloadArchive := { file := [], cache := none }

/-- The fresh archive right after its first (empty) load. -/
def loadedInitial : DownloadArchive := { file := [], cache := some [] }

lemma mem_insertSorted (x a : String) (l : List String) :
    a ∈ insertSorted x l ↔ a = x ∨ a ∈ l := by
  induction l with
  | nil => simp [insertSorted]
  | cons y ys ih =>
    unfold insertSorted
    by_cases h : x ≤ y
    · simp [h, List.mem_cons]
    · simp [h, List.mem_cons, ih]
      tauto

lemma mem_sortLines (a : String) (l : List String) :
    a ∈ sortLines l ↔ a ∈ l := by
  induction l with
  | nil => simp [sortLines]
  | cons x xs ih => simp [sortLines, mem_insertSorted, ih]

lemma entriesOf_append (l1 l2 : List String) :
    entriesOf (l1 ++ l2) = entriesOf l1 ++ entriesOf l2 := by
  simp [entriesOf]

lemma entriesOf_of_none (lines : List String)
    (h : ∀ l ∈ lines, parsedLine l = none) : entriesOf lines = [] := by
  induction lines with
  | nil => rfl
  | cons y ys ih =>
    unfold entriesOf
    rw [List.filterMap_cons, h y (List.mem_cons_self y ys)]
    exact ih fun l hl => h l (List.mem_cons_of_mem y hl)

lemma mem_entriesOf_of_clean (lines : List String)
    (h : ∀ l ∈ lines, parsedLine l = some l) (x : String) :
    x ∈ entriesOf lines ↔ x ∈ lines := by
  induction lines with
  | nil => exact Iff.rfl
  | cons y ys ih =>
    have hys : ∀ l ∈ ys, parsedLine l = some l :=
      fun l hl => h l (List.mem_cons_of_mem y hl)
    unfold entriesOf
    rw [List.filterMap_cons, h y (List.mem_cons_self y ys)]
    simp only [List.mem_cons]
    exact or_congr Iff.rfl (ih hys)

lemma contains_iff_mem_str (l : List String) (a : String) :
    l.contains a = true ↔ a ∈ l := by
  simp

/-- Invariant carried through a history of archive operations from any
loaded state: the cache tracks the net set of entry lines, the file
parses back to that same set (up to membership), and every cached line
parses back to itself. -/
lemma runOps_inv (ops : List ArchOp) :
    ∀ (fl cur : List String),
      (∀ l, l ∈ entriesOf fl ↔ l ∈ cur) →
      (∀ l ∈ cur, parsedLine l = some l) →
      (∀ op ∈ ops, opWF op) →
      (runOps { file := fl, cache := some cur } ops).cache =
        some (netFrom cur ops) ∧
      (∀ l, l ∈ entriesOf (runOps { file := fl, cache := some cur } ops).file
        ↔ l ∈ netFrom cur ops) ∧
      (∀ l ∈ netFrom cur ops, parsedLine l = some l) := by
  induction ops with
  | nil =>
    intro fl cur hiff hclean _
    exact ⟨rfl, hiff, hclean⟩
  | cons op rest ih =>
    intro fl cur hiff hclean hwf
    have hop := hwf op (List.mem_cons_self op rest)
    have hrest : ∀ o ∈ rest, opWF o :=
      fun o ho => hwf o (List.mem_cons_of_mem op ho)
    have hrun : runOps { file := fl, cache := some cur } (op :: rest) =
        runOps (applyOp { file := fl, cache := some cur } op) rest := rfl
    have hnetc : netFrom cur (op :: rest) = netFrom (stepNet cur op) rest := rfl
    rw [hrun, hnetc]
    cases op with
    | addOp e id title ts =>
      obtain ⟨hline, hcomment⟩ := hop
      by_cases hmem : cur.contains (entryLine e id) = true
      · have hstate : applyOp { file := fl, cache := some cur }
            (.addOp e id title ts) = { file := fl, cache := some cur } := by
          unfold applyOp DownloadArchive.add loadEntries
          dsimp only
          rw [if_pos hmem]
        have hnet : stepNet cur (.addOp e id title ts) = cur := by
          unfold stepNet
          dsimp only
          rw [if_pos hmem]
        rw [hstate, hnet]
        exact ih fl cur hiff hclean hrest
      · have hstate : applyOp { file := fl, cache := some cur }
            (.addOp e id title ts) =
            { file := fl ++ commentFor title ts ++ [entryLine e id],
              cache := some (cur ++ [entryLine e id]) } := by
          unfold applyOp DownloadArchive.add loadEntries
          dsimp only
          rw [if_neg hmem]
        have hnet : stepNet cur (.addOp e id title ts) =
            cur ++ [entryLine e id] := by
          unfold stepNet
          dsimp only
          rw [if_neg hmem]
        rw [hstate, hnet]
        refine ih _ _ ?_ ?_ hrest
        · intro l
          rw [entriesOf_append, entriesOf_append,
              entriesOf_of_none _ hcomment]
          have hsingle : entriesOf [entryLine e id] = [entryLine e id] := by
            unfold entriesOf
            rw [List.filterMap_cons, hline]
            rfl
          rw [hsingle]
          simp only [List.append_nil, List.mem_append, hiff l]
        · intro l hl
          cases List.mem_append.mp hl with
          | inl h1 => exact hclean l h1
          | inr h2 =>
            rw [List.mem_singleton.mp h2]
            exact hline
    | removeOp e id =>
      by_cases hmem : cur.contains (entryLine e id) = true
      · have hstate : applyOp { file := fl, cache := some cur }
            (.removeOp e id) =
            { file := sortLines (cur.filter (fun x => x ≠ entryLine e id)),
              cache := some (cur.filter (fun x => x ≠ entryLine e id)) } := by
          unfold applyOp DownloadArchive.remove loadEntries
          dsimp only
          rw [if_pos hmem]
        have hnet : stepNet cur (.removeOp e id) =
            cur.filter (fun x => x ≠ entryLine e id) := rfl
        have hsub : ∀ l ∈ cur.filter (fun x => x ≠ entryLine e id),
            parsedLine l = some l :=
          fun l hl => hclean l (List.mem_of_mem_filter hl)
        rw [hstate, hnet]
        refine ih _ _ ?_ hsub hrest
        intro l
        rw [mem_entriesOf_of_clean _
          (fun x hx => hsub x ((mem_sortLines x _).mp hx)) l]
        exact mem_sortLines l _
      · have hstate : applyOp { file := fl, cache := some cur }
            (.removeOp e id) = { file := fl, cache := some cur } := by
          unfold applyOp DownloadArchive.remove loadEntries
          dsimp only
          rw [if_neg hmem]
        have hfilter : cur.filter (fun x => x ≠ entryLine e id) = cur := by
          apply List.filter_eq_self.mpr
          intro a ha
          have hne : a ≠ entryLine e id := by
            intro hcon
            exact hmem ((contains_iff_mem_str cur (entryLine e id)).mpr
              (hcon ▸ ha))
          simp [hne]
        have hnet : stepNet cur (.removeOp e id) = cur := hfilter
        rw [hstate, hnet]
        exact ih fl cur hiff hclean hrest

lemma applyOp_initial (op : ArchOp) :
    applyOp initialArchive op = applyOp { file := [], cache := some [] } op := by
  cases op with
  | addOp e id title ts => rfl
  | removeOp e id => rfl

lemma runOps_initial_cons (op : ArchOp) (rest : List ArchOp) :
    runOps initialArchive (op :: rest) =
      runOps { file := [], cache := some [] } (op :: rest) := by
  show runOps (applyOp initialArchive op) rest =
    runOps (applyOp { file := [], cache := some [] } op) rest
  rw [applyOp_initial]

lemma runOps_facts (ops : List ArchOp) (hwf : ∀ op ∈ ops, opWF op) :
    (loadEntries (runOps initialArchive ops)).1 = netLines ops ∧
    (loadEntries (runOps initialArchive ops)).2.file =
      (runOps initialArchive ops).file ∧
    (∀ l, l ∈ entriesOf (runOps initialArchive ops).file ↔
      l ∈ netLines ops) := by
  cases ops with
  | nil => exact ⟨rfl, rfl, fun l => Iff.rfl⟩
  | cons op rest =>
    obtain ⟨hc, hiff, _⟩ :=
      runOps_inv (op :: rest) [] [] (fun l => Iff.rfl)
        (fun l hl => absurd hl (List.not_mem_nil l)) hwf
    rw [runOps_initial_cons]
    refine ⟨?_, ?_, hiff⟩
    · unfold loadEntries
      rw [hc]
      rfl
    · unfold loadEntries
      rw [hc]

/-- C3 (amended): over any history of add/remove operations on a fresh
archive whose written entry lines are strip-clean, non-empty and not
comment-like (and whose title comments parse as comments), contains
reflects exactly the net set of entry lines added and not since removed,
remove returns true exactly when the entry is present, a repeated add
leaves the backing file untouched (no duplicate line), and a fresh
archive over the same backing file answers every contains query the same
way (comment lines ignored on parse). -/
theorem c3_archive_contract (ops : List ArchOp) (e id : String)
    (title : Option String) (ts : String)
    (hwf : ∀ op ∈ ops, opWF op) :
    ((runOps initialArchive ops).contains e id).1 =
      (netLines ops).contains (entryLine e id) ∧
    ((runOps initialArchive ops).remove e id).1 =
      (netLines ops).contains (entryLine e id) ∧
    ((netLines ops).contains (entryLine e id) = true →
      ((runOps initialArchive ops).add e id title ts).file =
        (runOps initialArchive ops).file) ∧
    ((DownloadArchive.mk (runOps initialArchive ops).file none).contains
        e id).1 = (netLines ops).contains (entryLine e id) := by
  obtain ⟨h1, h2, h3⟩ := runOps_facts ops hwf
  refine ⟨?_, ?_, ?_, ?_⟩
  · unfold DownloadArchive.contains
    dsimp only
    rw [h1]
  · unfold DownloadArchive.remove
    dsimp only
    cases hb : (netLines ops).contains (entryLine e id) with
    | false => rw [h1, hb]; rfl
    | true => rw [h1, hb]; rfl
  · intro hmem
    unfold DownloadArchive.add
    dsimp only
    rw [h1, if_pos hmem]
    exact h2
  · unfold DownloadArchive.contains loadEntries
    dsimp only
    have hiffb :
        (entriesOf (runOps initialArchive ops).file).contains
            (entryLine e id) = true ↔
          (netLines ops).contains (entryLine e id) = true := by
      rw [contains_iff_mem_str, contains_iff_mem_str]
      exact h3 _
    exact Bool.eq_iff_iff.mpr hiffb

/-- C3 counterexample: add an entry whose extractor begins with the
comment marker. The live archive reports it present, but its written line
parses as a comment, so a fresh archive over the same backing file
reports it absent — the reload round-trip of the claim fails. -/
theorem c3_roundtrip_counterexample :
    ((runOps initialArchive [ArchOp.addOp "#a" "b" none "t"]).contains
        "#a" "b").1 = true ∧
    ((DownloadArchive.mk
        (runOps initialArchive [ArchOp.addOp "#a" "b" none "t"]).file
        none).contains "#a" "b").1 = false := by
  refine ⟨by decide, by decide⟩

/-- Witness for c3_archive_contract at a small concrete history. -/
theorem c3_archive_contract_witness :
    ((runOps initialArchive
        [ArchOp.addOp "youtube" "abc" (some "T") "ts1",
         ArchOp.addOp "youtube" "abc" none "ts2",
         ArchOp.removeOp "other" "zz"]).contains "youtube" "abc").1 =
      (netLines
        [ArchOp.addOp "youtube" "abc" (some "T") "ts1",
         ArchOp.addOp "youtube" "abc" none "ts2",
         ArchOp.removeOp "other" "zz"]).contains (entryLine "youtube" "abc") ∧
    ((runOps initialArchive
        [ArchOp.addOp "youtube" "abc" (some "T") "ts1",
         ArchOp.addOp "youtube" "abc" none "ts2",
         ArchOp.removeOp "other" "zz"]).remove "youtube" "abc").1 =
      (netLines
        [ArchOp.addOp "youtube" "abc" (some "T") "ts1",
         ArchOp.addOp "youtube" "abc" none "ts2",
         ArchOp.removeOp "other" "zz"]).contains (entryLine "youtube" "abc") ∧
    ((netLines
        [ArchOp.addOp "youtube" "abc" (some "T") "ts1",
         ArchOp.addOp "youtube" "abc" none "ts2",
         ArchOp.removeOp "other" "zz"]).contains (entryLine "youtube" "abc") =
        true →
      ((runOps initialArchive
          [ArchOp.addOp "youtube" "abc" (some "T") "ts1",
           ArchOp.addOp "youtube" "abc" none "ts2",
           ArchOp.removeOp "other" "zz"]).add "youtube" "abc" none
          "ts3").file =
        (runOps initialArchive
          [ArchOp.addOp "youtube" "abc" (some "T") "ts1",
           ArchOp.addOp "youtube" "abc" none "ts2",
           ArchOp.removeOp "other" "zz"]).file) ∧
    ((DownloadArchive.mk
        (runOps initialArchive
          [ArchOp.addOp "youtube" "abc" (some "T") "ts1",
           ArchOp.addOp "youtube" "abc" none "ts2",
           ArchOp.removeOp "other" "zz"]).file none).contains
        "youtube" "abc").1 =
      (netLines
        [ArchOp.addOp "youtube" "abc" (some "T") "ts1",
         ArchOp.addOp "youtube" "abc" none "ts2",
         ArchOp.removeOp "other" "zz"]).contains
        (entryLine "youtube" "abc") :=
  c3_archive_contract
    [ArchOp.addOp "youtube" "abc" (some "T") "ts1",
     ArchOp.addOp "youtube" "abc" none "ts2",
     ArchOp.removeOp "other" "zz"] "youtube" "abc" none "ts3"
    (by
      intro op hop
      fin_cases hop
      · exact ⟨by decide, by decide⟩
      · exact ⟨by decide, by decide⟩
      · exact trivial)

end YtTools
